import Mathlib

/-!
Verification development for the YGOClustering deck-analysis pipeline
(src/main.py).

Embedding conventions:
* Python strings are Lean `String`s; since the built-in `String` order does
  not reduce in the kernel, Python string comparison (lexicographic on code
  points) is modelled by `lexLt` on the underlying character list.
* A Python `Counter` is modelled extensionally as a total function with
  default value 0.  Throughout the program every key of every counter is
  created by a `+= 1` or merged by `update` from such counters, so a key is
  stored in the Python dict exactly when its count is positive; "key
  membership" is therefore modelled as "count is positive".
* A file whose read fails is modelled as `none`; a successfully read file is
  `some` of its list of raw lines.
* The networkx undirected graph built by `build_graph` is modelled by its
  node predicate, its (symmetric) adjacency predicate and its weight
  function.
-/

abbrev CardId := String

/-- ASCII lower-casing of one character (model of Python `str.lower` on the
characters relevant to the deck format). -/
def lowerChar (c : Char) : Char :=
  if 'A' ≤ c ∧ c ≤ 'Z' then Char.ofNat (c.toNat + 32) else c

/-- Model of Python `line.lower()`. -/
def pyLower (s : String) : String :=
  String.mk (s.data.map lowerChar)

/-- Model of Python `str.strip()`: drop whitespace from both ends. -/
def pyStrip (s : String) : String :=
  String.mk ((((s.data.dropWhile Char.isWhitespace).reverse).dropWhile
    Char.isWhitespace).reverse)

/-- Model of Python `str.isdigit()`: nonempty and all characters digits. -/
def pyIsDigit (s : String) : Bool :=
  !s.data.isEmpty && s.data.all Char.isDigit

/-- Model of Python `line.startswith(c)` for a single character. -/
def startsWithChar (s : String) (c : Char) : Bool :=
  match s.data with
  | [] => false
  | x :: _ => x == c

/-- Lexicographic strict order on character lists: the comparison Python
uses on strings (by code point). -/
def lexLt : List Char → List Char → Bool
  | [], [] => false
  | [], _ :: _ => true
  | _ :: _, [] => false
  | x :: xs, y :: ys => if x < y then true else if y < x then false else lexLt xs ys

/-- Python string comparison `a < b`. -/
def strLt (a b : CardId) : Bool :=
  lexLt a.data b.data

/-- The deck sections recognized by the parser. -/
inductive DeckSection
  | main
  | extra
  | side
deriving DecidableEq

/-- The loop state of `process_deck_file` in src/main.py: the active
section, the four per-deck counters it mutates, the duplicate-preserving
card list and the unique-card set (modelled as a duplicate-free list in
insertion order). -/
structure ParseState where
  current_section : Option DeckSection
  global_freq : CardId → Nat
  main_freq : CardId → Nat
  extra_freq : CardId → Nat
  side_freq : CardId → Nat
  deck_cards : List CardId
  deck_cards_set : List CardId

def initState : ParseState :=
  { current_section := none
    global_freq := fun _ => 0
    main_freq := fun _ => 0
    extra_freq := fun _ => 0
    side_freq := fun _ => 0
    deck_cards := []
    deck_cards_set := [] }

/-- Model of `counter[c] += 1` on a counter modelled as a function. -/
def bump (f : CardId → Nat) (c : CardId) : CardId → Nat :=
  fun x => if x = c then f x + 1 else f x

/-- One iteration of the line loop of `process_deck_file`
(src/main.py lines 56-75). -/
def processLine (st : ParseState) (line : String) : ParseState :=
  if startsWithChar line '#' then
    if pyLower line = "#main" then { st with current_section := some DeckSection.main }
    else if pyLower line = "#extra" then { st with current_section := some DeckSection.extra }
    else { st with current_section := none }
  else if startsWithChar line '!' then
    { st with current_section := some DeckSection.side }
  else if !pyIsDigit line then
    st
  else
    { st with
      global_freq := bump st.global_freq line
      main_freq :=
        if st.current_section = some DeckSection.main then bump st.main_freq line
        else st.main_freq
      extra_freq :=
        if st.current_section = some DeckSection.extra then bump st.extra_freq line
        else st.extra_freq
      side_freq :=
        if st.current_section = some DeckSection.side then bump st.side_freq line
        else st.side_freq
      deck_cards := st.deck_cards ++ [line]
      deck_cards_set :=
        if line ∈ st.deck_cards_set then st.deck_cards_set
        else st.deck_cards_set ++ [line] }

/-- The line preprocessing of `process_deck_file`: strip every line and drop
the ones that become empty (src/main.py line 47). -/
def stripLines (rawLines : List String) : List String :=
  (rawLines.map pyStrip).filter (fun l => l != "")

/-- The final parse state of one deck file. -/
def parseDeck (rawLines : List String) : ParseState :=
  (stripLines rawLines).foldl processLine initState

/-- The deck's unique card set (`deck_cards_set` in src/main.py). -/
def uniqueCardSet (rawLines : List String) : List CardId :=
  (parseDeck rawLines).deck_cards_set

/-- Python `tuple(sorted((a, b)))`: the canonical (ascending) form of an
unordered pair. -/
def sortPair (a b : CardId) : CardId × CardId :=
  if strLt b a then (b, a) else (a, b)

/-- Model of `itertools.combinations(l, 2)`: all pairs of elements at distinct
positions, first position before second. -/
def combinations2 : List CardId → List (CardId × CardId)
  | [] => []
  | x :: xs => xs.map (fun y => (x, y)) ++ combinations2 xs

/-- Model of `counter[p] += 1` on a pair counter. -/
def bumpPair (f : CardId × CardId → Nat) (p : CardId × CardId) : CardId × CardId → Nat :=
  fun q => if q = p then f q + 1 else f q

/-- The quadruple returned by `process_deck_file`:
global frequencies, the three per-section counters, the per-deck occurrence
counter and the co-occurrence counter. -/
structure DeckResult where
  global_freq : CardId → Nat
  main_freq : CardId → Nat
  extra_freq : CardId → Nat
  side_freq : CardId → Nat
  deck_occurrences : CardId → Nat
  cooccurrence : CardId × CardId → Nat

def emptyResult : DeckResult :=
  { global_freq := fun _ => 0
    main_freq := fun _ => 0
    extra_freq := fun _ => 0
    side_freq := fun _ => 0
    deck_occurrences := fun _ => 0
    cooccurrence := fun _ => 0 }

/-- Model of `process_deck_file` (src/main.py lines 39-84).  Here `none` models a file
whose open/read raised: the function returns the empty counters. -/
def process_deck_file (file : Option (List String)) : DeckResult :=
  match file with
  | none => emptyResult
  | some rawLines =>
    let st := parseDeck rawLines
    { global_freq := st.global_freq
      main_freq := st.main_freq
      extra_freq := st.extra_freq
      side_freq := st.side_freq
      deck_occurrences := st.deck_cards_set.foldl (fun f c => bump f c) (fun _ => 0)
      cooccurrence :=
        (combinations2 st.deck_cards_set).foldl
          (fun f p => bumpPair f (sortPair p.1 p.2)) (fun _ => 0) }

/-- Element-wise `Counter.update` merge of two partial results
(src/main.py lines 103-107). -/
def mergeResult (a b : DeckResult) : DeckResult :=
  { global_freq := fun c => a.global_freq c + b.global_freq c
    main_freq := fun c => a.main_freq c + b.main_freq c
    extra_freq := fun c => a.extra_freq c + b.extra_freq c
    side_freq := fun c => a.side_freq c + b.side_freq c
    deck_occurrences := fun c => a.deck_occurrences c + b.deck_occurrences c
    cooccurrence := fun p => a.cooccurrence p + b.cooccurrence p }

/-- Model of `parse_ydk_files_parallel` (src/main.py lines 87-109): process every
file and merge the per-file counters into the totals. -/
def parse_ydk_files_parallel (files : List (Option (List String))) : DeckResult :=
  files.foldl (fun acc f => mergeResult acc (process_deck_file f)) emptyResult


/-- The networkx graph built by `build_graph`, modelled extensionally:
node membership, edge membership (symmetric, as adjacency in an undirected
graph) and the stored edge weight. -/
structure BuiltGraph where
  hasNode : CardId → Bool
  hasEdge : CardId → CardId → Bool
  edge_weight : CardId → CardId → Nat

/-- Model of `build_graph` (src/main.py lines 112-121).  A node is added for every
key of `global_freq` (a key is stored iff its count is positive, see the
header); an edge `add_edge(c1, c2, weight)` is recorded for every stored
co-occurrence key whose weight reaches `min_edge_weight` and whose two
endpoints are nodes; networkx adjacency makes the edge visible from both
endpoints, hence the symmetric disjunction. -/
def build_graph (global_freq : CardId → Nat) (cooccurrence : CardId × CardId → Nat)
    (min_edge_weight : Nat) : BuiltGraph :=
  { hasNode := fun c => decide (0 < global_freq c)
    hasEdge := fun x y =>
      (decide (0 < cooccurrence (x, y)) && decide (min_edge_weight ≤ cooccurrence (x, y)) ||
        decide (0 < cooccurrence (y, x)) && decide (min_edge_weight ≤ cooccurrence (y, x))) &&
      decide (0 < global_freq x) && decide (0 < global_freq y)
    edge_weight := fun x y =>
      if 0 < cooccurrence (x, y) then cooccurrence (x, y) else cooccurrence (y, x) }

/-- The unused-card report of `print_statistics` (src/main.py line 172): the
names of the catalog entries whose id is not a key of `global_freq`.  The
catalog is a list of (id, name) entries. -/
def unused_cards (card_dict : List (CardId × String)) (global_freq : CardId → Nat) :
    List String :=
  (card_dict.filter (fun p => decide (global_freq p.1 = 0))).map Prod.snd

/-- The graph as `visualize_graph` sees it: the node list (id with its
`count` attribute, in insertion order) and the edge list. -/
structure VisGraph where
  nodes : List (CardId × Nat)
  edges : List (CardId × CardId × Nat)

/-- The descending-by-count node ordering used by `visualize_graph`
(`sorted(..., key=count, reverse=True)`); a stable sort, like Python's. -/
def sortByCountDesc (nodes : List (CardId × Nat)) : List (CardId × Nat) :=
  nodes.insertionSort (fun p q => q.2 ≤ p.2)

/-- The filtering step of `visualize_graph` (src/main.py lines 130-138): if
the graph has more than `max_nodes` nodes, keep the `max_nodes` nodes of
largest `count` and take the induced subgraph; otherwise the graph is
rendered unchanged. -/
def visualize_filter (G : VisGraph) (max_nodes : Nat) : VisGraph :=
  if G.nodes.length ≤ max_nodes then G
  else
    let top := (sortByCountDesc G.nodes).take max_nodes
    let keep := top.map Prod.fst
    { nodes := top
      edges := G.edges.filter (fun e => decide (e.1 ∈ keep) && decide (e.2.1 ∈ keep)) }

/-- Instrumentation state (not a definition of the source): the active
section, evolved exactly as in `processLine`, together with a counter of the
card-id lines read while no section was active. -/
structure SecState where
  cs : Option DeckSection
  nosec : CardId → Nat

/-- Instrumentation: the same line dispatch as `processLine`, but counting
only the card-id lines that are read while no section is active.  Used to
state the corrected form of the total = main+extra+side property. -/
def nosecLine (s : SecState) (line : String) : SecState :=
  if startsWithChar line '#' then
    if pyLower line = "#main" then { s with cs := some DeckSection.main }
    else if pyLower line = "#extra" then { s with cs := some DeckSection.extra }
    else { s with cs := none }
  else if startsWithChar line '!' then
    { s with cs := some DeckSection.side }
  else if !pyIsDigit line then
    s
  else if s.cs = none then
    { s with nosec := bump s.nosec line }
  else
    s

/-- Per-file count of occurrences of each card on lines read while no
section was active. -/
def deck_nosec (file : Option (List String)) : CardId → Nat :=
  match file with
  | none => fun _ => 0
  | some rawLines => ((stripLines rawLines).foldl nosecLine ⟨none, fun _ => 0⟩).nosec

/-- Corpus-wide sum of `deck_nosec`. -/
def corpus_nosec (files : List (Option (List String))) (c : CardId) : Nat :=
  (files.map (fun f => deck_nosec f c)).sum

/-! ### Order facts about the lexicographic comparison -/

theorem lexLt_irrefl : ∀ l : List Char, lexLt l l = false := by
  intro l
  induction l with
  | nil => rfl
  | cons x xs ih => simp [lexLt, lt_irrefl, ih]

theorem lexLt_asymm : ∀ a b : List Char, lexLt a b = true → lexLt b a = false := by
  intro a
  induction a with
  | nil =>
    intro b h
    cases b with
    | nil => simp [lexLt] at h
    | cons y ys => simp [lexLt]
  | cons x xs ih =>
    intro b h
    cases b with
    | nil => simp [lexLt] at h
    | cons y ys =>
      simp only [lexLt] at h ⊢
      rcases lt_trichotomy x y with hxy | hxy | hxy
      · simp [hxy, asymm hxy, lt_irrefl]
      · subst hxy
        simp only [lt_irrefl, if_false] at h ⊢
        exact ih ys h
      · simp [hxy, asymm hxy] at h

theorem lexLt_trichotomy : ∀ a b : List Char,
    lexLt a b = true ∨ a = b ∨ lexLt b a = true := by
  intro a
  induction a with
  | nil => intro b; cases b <;> simp [lexLt]
  | cons x xs ih =>
    intro b
    cases b with
    | nil => simp [lexLt]
    | cons y ys =>
      rcases lt_trichotomy x y with hxy | hxy | hxy
      · left; simp [lexLt, hxy]
      · subst hxy
        rcases ih ys with h | h | h
        · left; simp [lexLt, lt_irrefl, h]
        · right; left; rw [h]
        · right; right; simp [lexLt, lt_irrefl, h]
      · right; right; simp [lexLt, hxy]

theorem strLt_irrefl (s : CardId) : strLt s s = false :=
  lexLt_irrefl s.data

theorem strLt_asymm {a b : CardId} (h : strLt a b = true) : strLt b a = false :=
  lexLt_asymm a.data b.data h

theorem strLt_trichotomy (a b : CardId) :
    strLt a b = true ∨ a = b ∨ strLt b a = true := by
  rcases lexLt_trichotomy a.data b.data with h | h | h
  · exact Or.inl h
  · exact Or.inr (Or.inl (congrArg String.mk h))
  · exact Or.inr (Or.inr h)

/-! ### Facts about sortPair -/

theorem sortPair_cases (a b : CardId) :
    sortPair a b = (a, b) ∨ sortPair a b = (b, a) := by
  unfold sortPair
  by_cases h : strLt b a = true
  · simp [h]
  · simp [h]

theorem sortPair_inj {x y a b : CardId} (h : sortPair x y = sortPair a b) :
    (x = a ∧ y = b) ∨ (x = b ∧ y = a) := by
  rcases sortPair_cases x y with h1 | h1 <;> rcases sortPair_cases a b with h2 | h2 <;>
    rw [h1, h2] at h <;> injection h with hl hr <;> subst hl <;> subst hr
  · exact Or.inl ⟨rfl, rfl⟩
  · exact Or.inr ⟨rfl, rfl⟩
  · exact Or.inr ⟨rfl, rfl⟩
  · exact Or.inl ⟨rfl, rfl⟩

theorem sortPair_comm {a b : CardId} (hne : a ≠ b) : sortPair a b = sortPair b a := by
  unfold sortPair
  rcases strLt_trichotomy a b with h | h | h
  · simp [h, strLt_asymm h]
  · exact absurd h hne
  · simp [h, strLt_asymm h]

theorem sortPair_canonical {a b : CardId} (hne : a ≠ b) :
    strLt (sortPair a b).1 (sortPair a b).2 = true := by
  unfold sortPair
  by_cases h : strLt b a = true
  · simp [h]
  · rcases strLt_trichotomy a b with h2 | h2 | h2
    · simp [h, h2]
    · exact absurd h2 hne
    · exact absurd h2 h

/-! ### The merge monoid on DeckResult -/

theorem DeckResult.ext2 {a b : DeckResult}
    (h1 : a.global_freq = b.global_freq) (h2 : a.main_freq = b.main_freq)
    (h3 : a.extra_freq = b.extra_freq) (h4 : a.side_freq = b.side_freq)
    (h5 : a.deck_occurrences = b.deck_occurrences)
    (h6 : a.cooccurrence = b.cooccurrence) : a = b := by
  cases a; cases b; simp_all

theorem mergeResult_comm (a b : DeckResult) : mergeResult a b = mergeResult b a := by
  apply DeckResult.ext2 <;> funext x <;> simp [mergeResult] <;> omega

theorem mergeResult_assoc (a b c : DeckResult) :
    mergeResult (mergeResult a b) c = mergeResult a (mergeResult b c) := by
  apply DeckResult.ext2 <;> funext x <;> simp [mergeResult] <;> omega

theorem mergeResult_empty_left (a : DeckResult) : mergeResult emptyResult a = a := by
  apply DeckResult.ext2 <;> funext x <;> simp [mergeResult, emptyResult]

theorem mergeResult_empty_right (a : DeckResult) : mergeResult a emptyResult = a := by
  apply DeckResult.ext2 <;> funext x <;> simp [mergeResult, emptyResult]

theorem parse_foldl_general (files : List (Option (List String))) :
    ∀ acc : DeckResult,
      files.foldl (fun a f => mergeResult a (process_deck_file f)) acc =
        mergeResult acc (parse_ydk_files_parallel files) := by
  induction files with
  | nil => intro acc; simp [parse_ydk_files_parallel, mergeResult_empty_right]
  | cons f fs ih =>
    intro acc
    have hcons : parse_ydk_files_parallel (f :: fs) =
        mergeResult (process_deck_file f) (parse_ydk_files_parallel fs) := by
      show fs.foldl _ (mergeResult emptyResult (process_deck_file f)) = _
      rw [ih, mergeResult_empty_left]
    rw [hcons, ← mergeResult_assoc]
    show fs.foldl _ (mergeResult acc (process_deck_file f)) = _
    rw [ih]

theorem parse_cons (f : Option (List String)) (fs : List (Option (List String))) :
    parse_ydk_files_parallel (f :: fs) =
      mergeResult (process_deck_file f) (parse_ydk_files_parallel fs) := by
  show (fs.foldl _ (mergeResult emptyResult (process_deck_file f))) = _
  rw [parse_foldl_general fs, mergeResult_empty_left]

/-! ### Per-deck facts: the unique card set and the co-occurrence counter -/

theorem bump_le (f : CardId → Nat) (c x : CardId) : f x ≤ bump f c x := by
  unfold bump
  split <;> omega

theorem processLine_set_nodup (st : ParseState) (line : String)
    (h : st.deck_cards_set.Nodup) : (processLine st line).deck_cards_set.Nodup := by
  unfold processLine
  split_ifs with h1 h2 h3 h4 h5 h6 <;>
    simp_all [List.nodup_append, List.disjoint_singleton]

theorem foldl_processLine_set_nodup (lines : List String) :
    ∀ st : ParseState, st.deck_cards_set.Nodup →
      ((lines.foldl processLine st).deck_cards_set).Nodup := by
  induction lines with
  | nil => intro st h; exact h
  | cons l ls ih => intro st h; exact ih _ (processLine_set_nodup st l h)

theorem uniqueCardSet_nodup (rawLines : List String) : (uniqueCardSet rawLines).Nodup :=
  foldl_processLine_set_nodup _ initState List.nodup_nil

theorem bump_pos_of (f : CardId → Nat) (line c : CardId)
    (h : 0 < f c ∨ c = line) : 0 < bump f line c := by
  unfold bump
  rcases h with h | rfl
  · split <;> omega
  · simp

theorem processLine_set_global_pos (st : ParseState) (line : String)
    (h : ∀ c ∈ st.deck_cards_set, 0 < st.global_freq c) :
    ∀ c ∈ (processLine st line).deck_cards_set, 0 < (processLine st line).global_freq c := by
  unfold processLine
  split_ifs <;> intro c hc <;> simp_all <;>
    first
      | exact h c hc
      | exact bump_pos_of _ _ _ (Or.inl (h c hc))
      | (rcases hc with hc | rfl
         · exact bump_pos_of _ _ _ (Or.inl (h c hc))
         · exact bump_pos_of _ _ _ (Or.inr rfl))

theorem foldl_processLine_set_global_pos (lines : List String) :
    ∀ st : ParseState, (∀ c ∈ st.deck_cards_set, 0 < st.global_freq c) →
      ∀ c ∈ (lines.foldl processLine st).deck_cards_set,
        0 < (lines.foldl processLine st).global_freq c := by
  induction lines with
  | nil => intro st h; exact h
  | cons l ls ih => intro st h; exact ih _ (processLine_set_global_pos st l h)

theorem mem_uniqueCardSet_global_pos (rawLines : List String) (c : CardId)
    (h : c ∈ uniqueCardSet rawLines) : 0 < (parseDeck rawLines).global_freq c :=
  foldl_processLine_set_global_pos _ initState (by simp [initState]) c h

theorem foldl_bumpPair_eq_count (ps : List (CardId × CardId)) :
    ∀ (f : CardId × CardId → Nat) (q : CardId × CardId),
      (ps.foldl (fun g p => bumpPair g (sortPair p.1 p.2)) f) q =
        f q + (ps.map (fun p => sortPair p.1 p.2)).count q := by
  induction ps with
  | nil => intro f q; simp
  | cons p ps ih =>
    intro f q
    show (ps.foldl _ (bumpPair f (sortPair p.1 p.2))) q = _
    rw [ih]
    have hbe : (if sortPair p.1 p.2 == q then 1 else 0) =
        (if q = sortPair p.1 p.2 then 1 else 0) := by
      by_cases hq : q = sortPair p.1 p.2
      · simp [hq]
      · have hq2 : ¬(sortPair p.1 p.2 = q) := fun he => hq he.symm
        simp [hq, hq2]
    rw [List.map_cons, List.count_cons, hbe]
    simp only [bumpPair]
    by_cases hq : q = sortPair p.1 p.2 <;> simp [hq] <;> omega

theorem foldl_bump_eq_count (l : List CardId) :
    ∀ (f : CardId → Nat) (c : CardId),
      (l.foldl (fun f c => bump f c) f) c = f c + l.count c := by
  induction l with
  | nil => intro f c; simp
  | cons x xs ih =>
    intro f c
    show (xs.foldl _ (bump f x)) c = _
    rw [ih]
    have hbe : (if x == c then 1 else 0) = (if c = x then 1 else 0) := by
      by_cases hc : c = x
      · simp [hc]
      · have hc2 : ¬(x = c) := fun he => hc he.symm
        simp [hc, hc2]
    rw [List.count_cons, hbe]
    simp only [bump]
    by_cases hc : c = x <;> simp [hc] <;> omega

theorem mem_combinations2 : ∀ (l : List CardId) (p : CardId × CardId),
    p ∈ combinations2 l → p.1 ∈ l ∧ p.2 ∈ l := by
  intro l
  induction l with
  | nil => intro p hp; simp [combinations2] at hp
  | cons x xs ih =>
    intro p hp
    rw [combinations2, List.mem_append] at hp
    rcases hp with hp | hp
    · rcases List.mem_map.mp hp with ⟨y, hy, he⟩
      subst he
      exact ⟨List.mem_cons_self x xs, List.mem_cons_of_mem x hy⟩
    · exact ⟨List.mem_cons_of_mem x (ih p hp).1, List.mem_cons_of_mem x (ih p hp).2⟩

theorem combinations2_ne : ∀ (l : List CardId), l.Nodup →
    ∀ p ∈ combinations2 l, p.1 ≠ p.2 := by
  intro l
  induction l with
  | nil => intro _ p hp; simp [combinations2] at hp
  | cons x xs ih =>
    intro hnd p hp
    rcases List.nodup_cons.mp hnd with ⟨hx, hxs⟩
    rw [combinations2, List.mem_append] at hp
    rcases hp with hp | hp
    · rcases List.mem_map.mp hp with ⟨y, hy, he⟩
      subst he
      intro hxy
      have hxy2 : x = y := hxy
      cases hxy2
      exact hx hy
    · exact ih hxs p hp

theorem sortPair_mem_map_combinations2 {l : List CardId} {a b : CardId}
    (h : sortPair a b ∈ (combinations2 l).map (fun p => sortPair p.1 p.2)) :
    a ∈ l ∧ b ∈ l := by
  rcases List.mem_map.mp h with ⟨p, hp, hpe⟩
  rcases mem_combinations2 l p hp with ⟨h1, h2⟩
  rcases sortPair_inj hpe with ⟨rfl, rfl⟩ | ⟨rfl, rfl⟩
  · exact ⟨h1, h2⟩
  · exact ⟨h2, h1⟩

theorem count_map_sortPair_head (x b : CardId) (hxb : x ≠ b) :
    ∀ xs : List CardId,
      (xs.map (fun y => sortPair x y)).count (sortPair x b) = xs.count b := by
  intro xs
  induction xs with
  | nil => simp
  | cons y ys ih =>
    rw [List.map_cons, List.count_cons, List.count_cons, ih]
    by_cases hyb : y = b
    · subst hyb
      simp
    · have hne2 : ¬(sortPair x b = sortPair x y) := by
        intro he
        rcases sortPair_inj he with ⟨_, h2⟩ | ⟨_, h2⟩
        · exact hyb h2.symm
        · exact hxb h2.symm
      have hne3 : ¬(sortPair x y = sortPair x b) := fun he => hne2 he.symm
      simp [hne2, hne3, hyb]

theorem count_sortPair_combinations2 : ∀ l : List CardId, l.Nodup →
    ∀ a b : CardId, a ∈ l → b ∈ l → a ≠ b →
      ((combinations2 l).map (fun p => sortPair p.1 p.2)).count (sortPair a b) = 1 := by
  intro l
  induction l with
  | nil => intro _ a b ha; simp at ha
  | cons x xs ih =>
    intro hnd a b ha hb hne
    rcases List.nodup_cons.mp hnd with ⟨hx, hxs⟩
    rw [combinations2, List.map_append, List.count_append, List.map_map]
    have hmapx : (xs.map ((fun p => sortPair p.1 p.2) ∘ fun y => (x, y))) =
        xs.map (fun y => sortPair x y) := rfl
    rw [hmapx]
    rcases List.mem_cons.mp ha with hax | hax
    · subst hax
      have hbxs : b ∈ xs := by
        rcases List.mem_cons.mp hb with h | h
        · exact absurd h (Ne.symm hne)
        · exact h
      have h1 : (xs.map (fun y => sortPair a y)).count (sortPair a b) = xs.count b :=
        count_map_sortPair_head a b hne xs
      have hle := List.nodup_iff_count_le_one.mp hxs b
      have hpos : xs.count b ≠ 0 := fun h0 => (List.count_eq_zero.mp h0) hbxs
      have h2 : ((combinations2 xs).map fun p => sortPair p.1 p.2).count (sortPair a b) = 0 := by
        rw [List.count_eq_zero]
        intro hmem
        exact hx (sortPair_mem_map_combinations2 hmem).1
      omega
    · rcases List.mem_cons.mp hb with hbx | hbxs
      · subst hbx
        rw [sortPair_comm hne]
        have h1 : (xs.map (fun y => sortPair b y)).count (sortPair b a) = xs.count a :=
          count_map_sortPair_head b a (Ne.symm hne) xs
        have hle := List.nodup_iff_count_le_one.mp hxs a
        have hpos : xs.count a ≠ 0 := fun h0 => (List.count_eq_zero.mp h0) hax
        have h2 : ((combinations2 xs).map fun p => sortPair p.1 p.2).count (sortPair b a) = 0 := by
          rw [List.count_eq_zero]
          intro hmem
          exact hx (sortPair_mem_map_combinations2 hmem).1
        omega
      · have h1 : (xs.map (fun y => sortPair x y)).count (sortPair a b) = 0 := by
          rw [List.count_eq_zero]
          intro hmem
          rcases List.mem_map.mp hmem with ⟨y, hy, he⟩
          rcases sortPair_inj he with ⟨h3, _⟩ | ⟨h3, _⟩
          · refine hx ?_
            rw [h3]
            exact hax
          · refine hx ?_
            rw [h3]
            exact hbxs
        have h2 := ih hxs a b hax hbxs hne
        omega

theorem count_pos_canonical {l : List CardId} (hnd : l.Nodup) {q : CardId × CardId}
    (h : ((combinations2 l).map (fun p => sortPair p.1 p.2)).count q ≠ 0) :
    strLt q.1 q.2 = true := by
  have hmem : q ∈ (combinations2 l).map (fun p => sortPair p.1 p.2) := by
    by_contra hq
    exact h (List.count_eq_zero.mpr hq)
  rcases List.mem_map.mp hmem with ⟨p, hp, rfl⟩
  exact sortPair_canonical (combinations2_ne l hnd p hp)

theorem cooccurrence_eq_count (rawLines : List String) (q : CardId × CardId) :
    (process_deck_file (some rawLines)).cooccurrence q =
      ((combinations2 (uniqueCardSet rawLines)).map (fun p => sortPair p.1 p.2)).count q := by
  show ((combinations2 (parseDeck rawLines).deck_cards_set).foldl
      (fun f p => bumpPair f (sortPair p.1 p.2)) (fun _ => 0)) q = _
  rw [foldl_bumpPair_eq_count]
  simp [uniqueCardSet]

theorem deck_occurrences_eq_count (rawLines : List String) (c : CardId) :
    (process_deck_file (some rawLines)).deck_occurrences c =
      (uniqueCardSet rawLines).count c := by
  show ((parseDeck rawLines).deck_cards_set.foldl (fun f c => bump f c) (fun _ => 0)) c = _
  rw [foldl_bump_eq_count]
  simp [uniqueCardSet]

/-! ### Branch equations for the line dispatch -/

theorem processLine_hash_main {line : String} (st : ParseState)
    (h1 : startsWithChar line '#' = true) (h2 : pyLower line = "#main") :
    processLine st line = { st with current_section := some DeckSection.main } := by
  unfold processLine
  rw [if_pos h1, if_pos h2]

theorem processLine_hash_extra {line : String} (st : ParseState)
    (h1 : startsWithChar line '#' = true) (h2 : ¬(pyLower line = "#main"))
    (h3 : pyLower line = "#extra") :
    processLine st line = { st with current_section := some DeckSection.extra } := by
  unfold processLine
  rw [if_pos h1, if_neg h2, if_pos h3]

theorem processLine_hash_other {line : String} (st : ParseState)
    (h1 : startsWithChar line '#' = true) (h2 : ¬(pyLower line = "#main"))
    (h3 : ¬(pyLower line = "#extra")) :
    processLine st line = { st with current_section := none } := by
  unfold processLine
  rw [if_pos h1, if_neg h2, if_neg h3]

theorem processLine_bang {line : String} (st : ParseState)
    (h1 : ¬(startsWithChar line '#' = true)) (h2 : startsWithChar line '!' = true) :
    processLine st line = { st with current_section := some DeckSection.side } := by
  unfold processLine
  rw [if_neg h1, if_pos h2]

theorem processLine_skip {line : String} (st : ParseState)
    (h1 : ¬(startsWithChar line '#' = true)) (h2 : ¬(startsWithChar line '!' = true))
    (h3 : ¬(pyIsDigit line = true)) :
    processLine st line = st := by
  unfold processLine
  rw [if_neg h1, if_neg h2, if_pos (by simp [Bool.not_eq_true] at h3; simp [h3])]

theorem processLine_digit {line : String} (st : ParseState)
    (h1 : ¬(startsWithChar line '#' = true)) (h2 : ¬(startsWithChar line '!' = true))
    (h3 : pyIsDigit line = true) :
    processLine st line =
      { st with
        global_freq := bump st.global_freq line
        main_freq :=
          if st.current_section = some DeckSection.main then bump st.main_freq line
          else st.main_freq
        extra_freq :=
          if st.current_section = some DeckSection.extra then bump st.extra_freq line
          else st.extra_freq
        side_freq :=
          if st.current_section = some DeckSection.side then bump st.side_freq line
          else st.side_freq
        deck_cards := st.deck_cards ++ [line]
        deck_cards_set :=
          if line ∈ st.deck_cards_set then st.deck_cards_set
          else st.deck_cards_set ++ [line] } := by
  unfold processLine
  rw [if_neg h1, if_neg h2, if_neg (by simp [h3])]

theorem nosecLine_hash_main {line : String} (s : SecState)
    (h1 : startsWithChar line '#' = true) (h2 : pyLower line = "#main") :
    nosecLine s line = { s with cs := some DeckSection.main } := by
  unfold nosecLine
  rw [if_pos h1, if_pos h2]

theorem nosecLine_hash_extra {line : String} (s : SecState)
    (h1 : startsWithChar line '#' = true) (h2 : ¬(pyLower line = "#main"))
    (h3 : pyLower line = "#extra") :
    nosecLine s line = { s with cs := some DeckSection.extra } := by
  unfold nosecLine
  rw [if_pos h1, if_neg h2, if_pos h3]

theorem nosecLine_hash_other {line : String} (s : SecState)
    (h1 : startsWithChar line '#' = true) (h2 : ¬(pyLower line = "#main"))
    (h3 : ¬(pyLower line = "#extra")) :
    nosecLine s line = { s with cs := none } := by
  unfold nosecLine
  rw [if_pos h1, if_neg h2, if_neg h3]

theorem nosecLine_bang {line : String} (s : SecState)
    (h1 : ¬(startsWithChar line '#' = true)) (h2 : startsWithChar line '!' = true) :
    nosecLine s line = { s with cs := some DeckSection.side } := by
  unfold nosecLine
  rw [if_neg h1, if_pos h2]

theorem nosecLine_skip {line : String} (s : SecState)
    (h1 : ¬(startsWithChar line '#' = true)) (h2 : ¬(startsWithChar line '!' = true))
    (h3 : ¬(pyIsDigit line = true)) :
    nosecLine s line = s := by
  unfold nosecLine
  rw [if_neg h1, if_neg h2, if_pos (by simp [Bool.not_eq_true] at h3; simp [h3])]

theorem nosecLine_digit {line : String} (s : SecState)
    (h1 : ¬(startsWithChar line '#' = true)) (h2 : ¬(startsWithChar line '!' = true))
    (h3 : pyIsDigit line = true) :
    nosecLine s line =
      (if s.cs = none then { s with nosec := bump s.nosec line } else s) := by
  unfold nosecLine
  rw [if_neg h1, if_neg h2, if_neg (by simp [h3])]

/-! ### The section-sum invariant: total = main + extra + side + sectionless -/

theorem processLine_nosec_sim (st : ParseState) (s : SecState) (line : String)
    (hcs : st.current_section = s.cs)
    (hsum : ∀ c, st.global_freq c =
      st.main_freq c + st.extra_freq c + st.side_freq c + s.nosec c) :
    (processLine st line).current_section = (nosecLine s line).cs ∧
      ∀ c, (processLine st line).global_freq c =
        (processLine st line).main_freq c + (processLine st line).extra_freq c +
          (processLine st line).side_freq c + (nosecLine s line).nosec c := by
  by_cases h1 : startsWithChar line '#' = true
  · by_cases h2 : pyLower line = "#main"
    · rw [processLine_hash_main st h1 h2, nosecLine_hash_main s h1 h2]
      exact ⟨rfl, hsum⟩
    · by_cases h3 : pyLower line = "#extra"
      · rw [processLine_hash_extra st h1 h2 h3, nosecLine_hash_extra s h1 h2 h3]
        exact ⟨rfl, hsum⟩
      · rw [processLine_hash_other st h1 h2 h3, nosecLine_hash_other s h1 h2 h3]
        exact ⟨rfl, hsum⟩
  · by_cases h2 : startsWithChar line '!' = true
    · rw [processLine_bang st h1 h2, nosecLine_bang s h1 h2]
      exact ⟨rfl, hsum⟩
    · by_cases h3 : pyIsDigit line = true
      · rw [processLine_digit st h1 h2 h3, nosecLine_digit s h1 h2 h3]
        rcases hval : s.cs with _ | sec
        · have hcs2 : st.current_section = none := by rw [hcs, hval]
          rw [hcs2]
          refine ⟨rfl, fun c => ?_⟩
          have hs := hsum c
          show bump st.global_freq line c =
            st.main_freq c + st.extra_freq c + st.side_freq c + bump s.nosec line c
          simp only [bump]
          by_cases hc : c = line
          · simp only [if_pos hc]
            omega
          · simp only [if_neg hc]
            omega
        · have hcs2 : st.current_section = some sec := by rw [hcs, hval]
          rw [hcs2]
          cases sec
          · refine ⟨hval.symm, fun c => ?_⟩
            have hs := hsum c
            show bump st.global_freq line c =
              bump st.main_freq line c + st.extra_freq c + st.side_freq c + s.nosec c
            simp only [bump]
            by_cases hc : c = line
            · simp only [if_pos hc]
              omega
            · simp only [if_neg hc]
              omega
          · refine ⟨hval.symm, fun c => ?_⟩
            have hs := hsum c
            show bump st.global_freq line c =
              st.main_freq c + bump st.extra_freq line c + st.side_freq c + s.nosec c
            simp only [bump]
            by_cases hc : c = line
            · simp only [if_pos hc]
              omega
            · simp only [if_neg hc]
              omega
          · refine ⟨hval.symm, fun c => ?_⟩
            have hs := hsum c
            show bump st.global_freq line c =
              st.main_freq c + st.extra_freq c + bump st.side_freq line c + s.nosec c
            simp only [bump]
            by_cases hc : c = line
            · simp only [if_pos hc]
              omega
            · simp only [if_neg hc]
              omega
      · rw [processLine_skip st h1 h2 h3, nosecLine_skip s h1 h2 h3]
        exact ⟨hcs, hsum⟩

theorem foldl_nosec_sim (lines : List String) :
    ∀ (st : ParseState) (s : SecState), st.current_section = s.cs →
      (∀ c, st.global_freq c =
        st.main_freq c + st.extra_freq c + st.side_freq c + s.nosec c) →
      ∀ c, (lines.foldl processLine st).global_freq c =
        (lines.foldl processLine st).main_freq c +
          (lines.foldl processLine st).extra_freq c +
          (lines.foldl processLine st).side_freq c +
          (lines.foldl nosecLine s).nosec c := by
  induction lines with
  | nil => intro st s _ hsum c; exact hsum c
  | cons l ls ih =>
    intro st s hcs hsum c
    rcases processLine_nosec_sim st s l hcs hsum with ⟨hcs2, hsum2⟩
    exact ih (processLine st l) (nosecLine s l) hcs2 hsum2 c

theorem deck_total_eq_sections (file : Option (List String)) (c : CardId) :
    (process_deck_file file).global_freq c =
      (process_deck_file file).main_freq c + (process_deck_file file).extra_freq c +
        (process_deck_file file).side_freq c + deck_nosec file c := by
  cases file with
  | none => rfl
  | some rawLines =>
    exact foldl_nosec_sim (stripLines rawLines) initState ⟨none, fun _ => 0⟩ rfl
      (fun _ => rfl) c

theorem parse_append (l1 l2 : List (Option (List String))) :
    parse_ydk_files_parallel (l1 ++ l2) =
      mergeResult (parse_ydk_files_parallel l1) (parse_ydk_files_parallel l2) := by
  induction l1 with
  | nil => simp [parse_ydk_files_parallel, mergeResult_empty_left]
  | cons f fs ih =>
    rw [List.cons_append, parse_cons, parse_cons, ih, mergeResult_assoc]

theorem parse_total_eq_sections (files : List (Option (List String))) (c : CardId) :
    (parse_ydk_files_parallel files).global_freq c =
      (parse_ydk_files_parallel files).main_freq c +
        (parse_ydk_files_parallel files).extra_freq c +
        (parse_ydk_files_parallel files).side_freq c + corpus_nosec files c := by
  induction files with
  | nil => rfl
  | cons f fs ih =>
    rw [parse_cons]
    have h1 := deck_total_eq_sections f c
    have hcn : corpus_nosec (f :: fs) c = deck_nosec f c + corpus_nosec fs c := by
      simp [corpus_nosec]
    simp only [mergeResult]
    rw [hcn]
    omega

/-! ### Sorting facts for the visualization filter -/

theorem sortByCountDesc_perm (nodes : List (CardId × Nat)) :
    (sortByCountDesc nodes).Perm nodes :=
  List.perm_insertionSort _ nodes

theorem sortByCountDesc_sorted (nodes : List (CardId × Nat)) :
    List.Sorted (fun p q : CardId × Nat => q.2 ≤ p.2) (sortByCountDesc nodes) := by
  haveI : IsTotal (CardId × Nat) (fun p q : CardId × Nat => q.2 ≤ p.2) :=
    ⟨fun a b => Nat.le_total b.2 a.2⟩
  haveI : IsTrans (CardId × Nat) (fun p q : CardId × Nat => q.2 ≤ p.2) :=
    ⟨fun a b c hab hbc => Nat.le_trans hbc hab⟩
  exact List.sorted_insertionSort _ nodes

theorem deck_co_support (rawLines : List String) (x y : CardId)
    (h : (process_deck_file (some rawLines)).cooccurrence (x, y) ≠ 0) :
    x ∈ uniqueCardSet rawLines ∧ y ∈ uniqueCardSet rawLines ∧ strLt x y = true := by
  rw [cooccurrence_eq_count] at h
  have hmem : (x, y) ∈ (combinations2 (uniqueCardSet rawLines)).map
      (fun p => sortPair p.1 p.2) := by
    by_contra hq
    exact h (List.count_eq_zero.mpr hq)
  have hcanon : strLt x y = true :=
    count_pos_canonical (uniqueCardSet_nodup rawLines) h
  rcases List.mem_map.mp hmem with ⟨p, hp, he⟩
  rcases mem_combinations2 _ p hp with ⟨h1, h2⟩
  rcases sortPair_cases p.1 p.2 with hsp | hsp <;> rw [hsp] at he
  · injection he with hx hy
    subst hx
    subst hy
    exact ⟨h1, h2, hcanon⟩
  · injection he with hx hy
    subst hx
    subst hy
    exact ⟨h2, h1, hcanon⟩

theorem deck_co_pos_global_pos (file : Option (List String)) (x y : CardId)
    (h : 0 < (process_deck_file file).cooccurrence (x, y)) :
    0 < (process_deck_file file).global_freq x ∧
      0 < (process_deck_file file).global_freq y := by
  cases file with
  | none => simp [process_deck_file, emptyResult] at h
  | some rawLines =>
    have h2 : (process_deck_file (some rawLines)).cooccurrence (x, y) ≠ 0 := by omega
    rcases deck_co_support rawLines x y h2 with ⟨hx, hy, _⟩
    exact ⟨mem_uniqueCardSet_global_pos rawLines x hx, mem_uniqueCardSet_global_pos rawLines y hy⟩

theorem parse_co_pos_global_pos (files : List (Option (List String))) (x y : CardId)
    (h : 0 < (parse_ydk_files_parallel files).cooccurrence (x, y)) :
    0 < (parse_ydk_files_parallel files).global_freq x ∧
      0 < (parse_ydk_files_parallel files).global_freq y := by
  induction files with
  | nil => simp [parse_ydk_files_parallel, emptyResult] at h
  | cons f fs ih =>
    rw [parse_cons] at h ⊢
    simp only [mergeResult] at h ⊢
    by_cases hf : 0 < (process_deck_file f).cooccurrence (x, y)
    · rcases deck_co_pos_global_pos f x y hf with ⟨h1, h2⟩
      omega
    · have hfs : 0 < (parse_ydk_files_parallel fs).cooccurrence (x, y) := by omega
      rcases ih hfs with ⟨h1, h2⟩
      omega

/-! ### Claim theorems -/

/-- C1: for every deck file, each unordered pair of distinct cards drawn
from the deck's unique card set has co-occurrence count exactly 1 (per
deck), regardless of duplicate copies, and the pair key is canonicalized by
sorted order, so a non-ascending key never carries a count. -/
theorem claim_C1 (rawLines : List String) (a b x y : CardId)
    (ha : a ∈ uniqueCardSet rawLines) (hb : b ∈ uniqueCardSet rawLines) (hne : a ≠ b) :
    (process_deck_file (some rawLines)).cooccurrence (sortPair a b) = 1 ∧
      ((process_deck_file (some rawLines)).cooccurrence (x, y) ≠ 0 → strLt x y = true) := by
  constructor
  · rw [cooccurrence_eq_count]
    exact count_sortPair_combinations2 _ (uniqueCardSet_nodup rawLines) a b ha hb hne
  · intro h
    exact (deck_co_support rawLines x y h).2.2

/-- Witness for C1 on the deck `#main / 1 / 1 / 2`: the pair (1,2) counts
exactly 1 although card 1 appears twice, and the reversed key (2,1) carries
no count (vacuously canonical). -/
theorem claim_C1_witness :
    ("1" ∈ uniqueCardSet ["#main", "1", "1", "2"] ∧
      "2" ∈ uniqueCardSet ["#main", "1", "1", "2"] ∧ "1" ≠ "2") ∧
      ((process_deck_file (some ["#main", "1", "1", "2"])).cooccurrence (sortPair "1" "2") = 1 ∧
        ((process_deck_file (some ["#main", "1", "1", "2"])).cooccurrence ("2", "1") ≠ 0 →
          strLt "2" "1" = true)) :=
  ⟨⟨by decide, by decide, by decide⟩,
    claim_C1 ["#main", "1", "1", "2"] "1" "2" "2" "1" (by decide) (by decide) (by decide)⟩

/-- C2 counterexample: the deck file consisting of the single line `1` (a
card-id line before any section marker) yields an observed card whose total
count is 1 while main+extra+side = 0, so total differs from the section
sum. -/
theorem claim_C2_counterexample :
    0 < (parse_ydk_files_parallel [some ["1"]]).global_freq "1" ∧
      (parse_ydk_files_parallel [some ["1"]]).global_freq "1" ≠
        (parse_ydk_files_parallel [some ["1"]]).main_freq "1" +
          (parse_ydk_files_parallel [some ["1"]]).extra_freq "1" +
          (parse_ydk_files_parallel [some ["1"]]).side_freq "1" := by
  decide

/-- C2 amended: after aggregation, total(card) = main+extra+side + the
number of occurrences of the card on lines read while no section was
active; in particular the claimed equality total = main+extra+side holds
exactly for cards that never occur outside an active section. -/
theorem claim_C2_amended (files : List (Option (List String))) (c : CardId) :
    (parse_ydk_files_parallel files).global_freq c =
      (parse_ydk_files_parallel files).main_freq c +
        (parse_ydk_files_parallel files).extra_freq c +
        (parse_ydk_files_parallel files).side_freq c + corpus_nosec files c ∧
      (corpus_nosec files c = 0 →
        (parse_ydk_files_parallel files).global_freq c =
          (parse_ydk_files_parallel files).main_freq c +
            (parse_ydk_files_parallel files).extra_freq c +
            (parse_ydk_files_parallel files).side_freq c) := by
  have h := parse_total_eq_sections files c
  exact ⟨h, fun h0 => by omega⟩

/-- Witness for the amended C2 on the corpus of one deck `#main / 1`. -/
theorem claim_C2_witness :
    corpus_nosec [some ["#main", "1"]] "1" = 0 ∧
      (parse_ydk_files_parallel [some ["#main", "1"]]).global_freq "1" =
        (parse_ydk_files_parallel [some ["#main", "1"]]).main_freq "1" +
          (parse_ydk_files_parallel [some ["#main", "1"]]).extra_freq "1" +
          (parse_ydk_files_parallel [some ["#main", "1"]]).side_freq "1" :=
  ⟨by decide, (claim_C2_amended [some ["#main", "1"]] "1").2 (by decide)⟩

/-- C3 counterexample: in the deck file `5 / 7` (digit lines with no active
section) the digit lines are NOT ignored: card 5 gets total count 1, enters
the deck-occurrence counter and the unique card set, and the pair (5,7)
gets a co-occurrence count, while no section counter changes. -/
theorem claim_C3_counterexample :
    (process_deck_file (some ["5", "7"])).global_freq "5" = 1 ∧
      (process_deck_file (some ["5", "7"])).deck_occurrences "5" = 1 ∧
      (process_deck_file (some ["5", "7"])).cooccurrence ("5", "7") = 1 ∧
      (process_deck_file (some ["5", "7"])).main_freq "5" = 0 := by
  decide

/-- C3 amended: a digit line read while no section is active is counted in
the total (global) frequency and enters the unique card set (hence
co-occurrence), but contributes to no per-section counter. -/
theorem claim_C3_amended (st : ParseState) (line : String)
    (hcs : st.current_section = none)
    (h1 : startsWithChar line '#' = false) (h2 : startsWithChar line '!' = false)
    (h3 : pyIsDigit line = true) :
    (processLine st line).global_freq line = st.global_freq line + 1 ∧
      (processLine st line).main_freq = st.main_freq ∧
      (processLine st line).extra_freq = st.extra_freq ∧
      (processLine st line).side_freq = st.side_freq ∧
      line ∈ (processLine st line).deck_cards_set := by
  rw [processLine_digit st (by simp [h1]) (by simp [h2]) h3]
  refine ⟨?_, ?_, ?_, ?_, ?_⟩
  · show bump st.global_freq line line = st.global_freq line + 1
    simp [bump]
  · show (if st.current_section = some DeckSection.main then bump st.main_freq line
      else st.main_freq) = st.main_freq
    rw [if_neg (by simp [hcs])]
  · show (if st.current_section = some DeckSection.extra then bump st.extra_freq line
      else st.extra_freq) = st.extra_freq
    rw [if_neg (by simp [hcs])]
  · show (if st.current_section = some DeckSection.side then bump st.side_freq line
      else st.side_freq) = st.side_freq
    rw [if_neg (by simp [hcs])]
  · show line ∈ (if line ∈ st.deck_cards_set then st.deck_cards_set
      else st.deck_cards_set ++ [line])
    by_cases hm : line ∈ st.deck_cards_set
    · rw [if_pos hm]
      exact hm
    · rw [if_neg hm]
      simp

/-- Witness for the amended C3: the digit line `5` processed in the initial
(no section) state. -/
theorem claim_C3_witness :
    (initState.current_section = none ∧ startsWithChar "5" '#' = false ∧
      startsWithChar "5" '!' = false ∧ pyIsDigit "5" = true) ∧
      ((processLine initState "5").global_freq "5" = initState.global_freq "5" + 1 ∧
        (processLine initState "5").main_freq = initState.main_freq ∧
        (processLine initState "5").extra_freq = initState.extra_freq ∧
        (processLine initState "5").side_freq = initState.side_freq ∧
        "5" ∈ (processLine initState "5").deck_cards_set) :=
  ⟨⟨rfl, by decide, by decide, by decide⟩,
    claim_C3_amended initState "5" rfl (by decide) (by decide) (by decide)⟩

/-- C4 counterexample: the marker line `#side` contains "side" but does NOT
select the SIDE section - the parser clears the active section instead
(only the exact lines "#main" / "#extra", case-insensitively, are
recognized among hash markers). -/
theorem claim_C4_counterexample :
    (processLine initState "#side").current_section ≠ some DeckSection.side ∧
      (processLine initState "#side").current_section = none := by
  decide

/-- C4 amended: a hash-marker line selects MAIN or EXTRA exactly when its
lower-cased text equals "#main" or "#extra" respectively (whole-line
comparison, not substring), any other hash line clears the active section,
and a line beginning with the bang character always forces SIDE. -/
theorem claim_C4_amended (st : ParseState) (line : String) :
    (startsWithChar line '#' = true →
      ((processLine st line).current_section = some DeckSection.main ↔
        pyLower line = "#main") ∧
      ((processLine st line).current_section = some DeckSection.extra ↔
        pyLower line = "#extra") ∧
      ((processLine st line).current_section = none ↔
        (pyLower line ≠ "#main" ∧ pyLower line ≠ "#extra"))) ∧
    (startsWithChar line '#' = false → startsWithChar line '!' = true →
      (processLine st line).current_section = some DeckSection.side) := by
  constructor
  · intro h1
    by_cases h2 : pyLower line = "#main"
    · rw [processLine_hash_main st h1 h2]
      simp [h2]
    · by_cases h3 : pyLower line = "#extra"
      · rw [processLine_hash_extra st h1 h2 h3]
        simp [h2, h3]
      · rw [processLine_hash_other st h1 h2 h3]
        simp [h2, h3]
  · intro h1 h2
    rw [processLine_bang st (by simp [h1]) h2]

/-- Witness for the amended C4 at the concrete marker line `#extra`. -/
theorem claim_C4_witness :
    startsWithChar "#extra" '#' = true ∧
      ((processLine initState "#extra").current_section = some DeckSection.extra ↔
        pyLower "#extra" = "#extra") :=
  ⟨by decide, ((claim_C4_amended initState "#extra").1 (by decide)).2.1⟩

/-- C5: aggregating a partitioned file set group-by-group and merging by
element-wise counter addition equals aggregating all files in one pass; the
merge is commutative and associative, so aggregation is order- and
parallelism-independent. -/
theorem claim_C5 (l1 l2 : List (Option (List String))) (a b c : DeckResult) :
    parse_ydk_files_parallel (l1 ++ l2) =
      mergeResult (parse_ydk_files_parallel l1) (parse_ydk_files_parallel l2) ∧
      mergeResult a b = mergeResult b a ∧
      mergeResult (mergeResult a b) c = mergeResult a (mergeResult b c) :=
  ⟨parse_append l1 l2, mergeResult_comm a b, mergeResult_assoc a b c⟩

/-- C7: a file whose read fails contributes the empty counters, and its
presence anywhere in a batch does not change the aggregate of the remaining
files. -/
theorem claim_C7 (l1 l2 : List (Option (List String))) :
    process_deck_file none = emptyResult ∧
      parse_ydk_files_parallel (l1 ++ none :: l2) = parse_ydk_files_parallel (l1 ++ l2) := by
  refine ⟨rfl, ?_⟩
  rw [parse_append, parse_append]
  have h : parse_ydk_files_parallel (none :: l2) = parse_ydk_files_parallel l2 := by
    rw [parse_cons]
    show mergeResult emptyResult (parse_ydk_files_parallel l2) = parse_ydk_files_parallel l2
    exact mergeResult_empty_left _
  rw [h]

/-- C6: the built graph has exactly one node per card with positive play
count; a card with zero count is not a node and, when it is in the catalog,
its name appears in the unused-cards report; for a canonical key (x, y)
(the co-occurrence counter stores only sorted keys of distinct cards, as
the spec's data model requires) an edge exists iff the stored count reaches
the threshold and both endpoints are nodes, the adjacency is symmetric, and
the edge weight is the stored count. -/
theorem claim_C6 (freq : CardId → Nat) (co : CardId × CardId → Nat) (T : Nat)
    (card_dict : List (CardId × String)) (c x y : CardId) (name : String)
    (hco : ∀ u v, 0 < co (u, v) → strLt u v = true)
    (hxy : strLt x y = true) :
    ((build_graph freq co T).hasNode c = true ↔ 0 < freq c) ∧
      ((build_graph freq co T).hasEdge x y = true ↔
        (0 < co (x, y) ∧ T ≤ co (x, y) ∧ 0 < freq x ∧ 0 < freq y)) ∧
      (build_graph freq co T).hasEdge y x = (build_graph freq co T).hasEdge x y ∧
      ((build_graph freq co T).hasEdge x y = true →
        (build_graph freq co T).edge_weight x y = co (x, y) ∧
          (build_graph freq co T).edge_weight y x = co (x, y)) ∧
      (freq c = 0 →
        (build_graph freq co T).hasNode c = false ∧
          ((c, name) ∈ card_dict → name ∈ unused_cards card_dict freq)) := by
  have hyx0 : co (y, x) = 0 := by
    by_contra h
    have h2 := hco y x (Nat.pos_of_ne_zero h)
    rw [strLt_asymm hxy] at h2
    exact Bool.false_ne_true h2
  refine ⟨?_, ?_, ?_, ?_, ?_⟩
  · simp [build_graph]
  · simp [build_graph, hyx0]
    tauto
  · rw [Bool.eq_iff_iff]
    simp [build_graph, hyx0]
    tauto
  · intro he
    have hpos : 0 < co (x, y) := by
      have h2 : (build_graph freq co T).hasEdge x y = true := he
      simp [build_graph, hyx0] at h2
      tauto
    constructor
    · show (if 0 < co (x, y) then co (x, y) else co (y, x)) = co (x, y)
      rw [if_pos hpos]
    · show (if 0 < co (y, x) then co (y, x) else co (x, y)) = co (x, y)
      rw [if_neg (by omega)]
  · intro h0
    constructor
    · simp [build_graph, h0]
    · intro hmem
      unfold unused_cards
      refine List.mem_map.mpr ⟨(c, name), ?_, rfl⟩
      refine List.mem_filter.mpr ⟨hmem, ?_⟩
      simp [h0]

/-- Witness for C6 on a two-card frequency table, one stored co-occurrence
pair and a catalog containing a played and an unplayed card. -/
theorem claim_C6_witness :
    ((build_graph (fun c => if c = "1" ∨ c = "2" then 1 else 0)
        (fun p => if p = ("1", "2") then 3 else 0) 3).hasNode "3" = true ↔
      0 < (if "3" = "1" ∨ "3" = "2" then 1 else 0)) ∧
      ((build_graph (fun c => if c = "1" ∨ c = "2" then 1 else 0)
          (fun p => if p = ("1", "2") then 3 else 0) 3).hasEdge "1" "2" = true ↔
        (0 < (if (("1", "2") : CardId × CardId) = ("1", "2") then 3 else 0) ∧
          3 ≤ (if (("1", "2") : CardId × CardId) = ("1", "2") then 3 else 0) ∧
          0 < (if "1" = "1" ∨ "1" = "2" then 1 else 0) ∧
          0 < (if "2" = "1" ∨ "2" = "2" then 1 else 0))) ∧
      (build_graph (fun c => if c = "1" ∨ c = "2" then 1 else 0)
          (fun p => if p = ("1", "2") then 3 else 0) 3).hasEdge "2" "1" =
        (build_graph (fun c => if c = "1" ∨ c = "2" then 1 else 0)
          (fun p => if p = ("1", "2") then 3 else 0) 3).hasEdge "1" "2" ∧
      ((build_graph (fun c => if c = "1" ∨ c = "2" then 1 else 0)
          (fun p => if p = ("1", "2") then 3 else 0) 3).hasEdge "1" "2" = true →
        (build_graph (fun c => if c = "1" ∨ c = "2" then 1 else 0)
            (fun p => if p = ("1", "2") then 3 else 0) 3).edge_weight "1" "2" =
          (if (("1", "2") : CardId × CardId) = ("1", "2") then 3 else 0) ∧
          (build_graph (fun c => if c = "1" ∨ c = "2" then 1 else 0)
            (fun p => if p = ("1", "2") then 3 else 0) 3).edge_weight "2" "1" =
          (if (("1", "2") : CardId × CardId) = ("1", "2") then 3 else 0)) ∧
      ((if "3" = "1" ∨ "3" = "2" then 1 else 0) = 0 →
        (build_graph (fun c => if c = "1" ∨ c = "2" then 1 else 0)
            (fun p => if p = ("1", "2") then 3 else 0) 3).hasNode "3" = false ∧
          (("3", "Gamma") ∈ [("1", "Alpha"), ("3", "Gamma")] →
            "Gamma" ∈ unused_cards [("1", "Alpha"), ("3", "Gamma")]
              (fun c => if c = "1" ∨ c = "2" then 1 else 0))) :=
  claim_C6 (fun c => if c = "1" ∨ c = "2" then 1 else 0)
    (fun p => if p = ("1", "2") then 3 else 0) 3 [("1", "Alpha"), ("3", "Gamma")]
    "3" "1" "2" "Gamma"
    (fun u v h => by
      by_cases hp : ((u, v) : CardId × CardId) = ("1", "2")
      · have hu : u = "1" := congrArg Prod.fst hp
        have hv : v = "2" := congrArg Prod.snd hp
        rw [hu, hv]
        decide
      · have h2 : 0 < (if ((u, v) : CardId × CardId) = ("1", "2") then 3 else 0) := h
        rw [if_neg hp] at h2
        exact absurd h2 (Nat.lt_irrefl 0))
    (by decide)

/-- C8: for any CardStatistics, any CoOccurrenceCounter (whose keys are, by
the spec's data model, canonicalized sorted pairs of distinct cards) and
any threshold, the built graph is simple and undirected: no self-loops, and
the adjacency seen from the two endpoints agrees (one edge per unordered
pair). -/
theorem claim_C8 (freq : CardId → Nat) (co : CardId × CardId → Nat) (T : Nat)
    (x y : CardId) (hco : ∀ u v, 0 < co (u, v) → strLt u v = true) :
    (build_graph freq co T).hasEdge x x = false ∧
      (build_graph freq co T).hasEdge y x = (build_graph freq co T).hasEdge x y := by
  constructor
  · have h0 : co (x, x) = 0 := by
      by_contra h
      have h2 := hco x x (Nat.pos_of_ne_zero h)
      rw [strLt_irrefl] at h2
      exact Bool.false_ne_true h2
    simp [build_graph, h0]
  · rw [Bool.eq_iff_iff]
    simp [build_graph]
    tauto

/-- Witness for C8 on the empty co-occurrence counter. -/
theorem claim_C8_witness :
    (build_graph (fun _ => 1) (fun _ => 0) 3).hasEdge "1" "1" = false ∧
      (build_graph (fun _ => 1) (fun _ => 0) 3).hasEdge "2" "1" =
        (build_graph (fun _ => 1) (fun _ => 0) 3).hasEdge "1" "2" :=
  claim_C8 (fun _ => 1) (fun _ => 0) 3 "1" "2"
    (fun u v h => absurd h (Nat.lt_irrefl 0))

/-- C9: every endpoint of a pair carried by the per-deck co-occurrence
counter has a positive global count in that same deck's result; after
aggregation every endpoint of every pair is again positive (hence a node of
the built graph), so the endpoint-presence check in build_graph never
excludes a pair whose weight meets the threshold. -/
theorem claim_C9 (file : Option (List String)) (files : List (Option (List String)))
    (x y u v : CardId) (T : Nat)
    (h1 : 0 < (process_deck_file file).cooccurrence (x, y))
    (h2 : 0 < (parse_ydk_files_parallel files).cooccurrence (u, v)) :
    (0 < (process_deck_file file).global_freq x ∧
      0 < (process_deck_file file).global_freq y) ∧
      (0 < (parse_ydk_files_parallel files).global_freq u ∧
        0 < (parse_ydk_files_parallel files).global_freq v) ∧
      (T ≤ (parse_ydk_files_parallel files).cooccurrence (u, v) →
        (build_graph (parse_ydk_files_parallel files).global_freq
          (parse_ydk_files_parallel files).cooccurrence T).hasEdge u v = true) := by
  refine ⟨deck_co_pos_global_pos file x y h1, parse_co_pos_global_pos files u v h2,
    fun hT => ?_⟩
  rcases parse_co_pos_global_pos files u v h2 with ⟨hu, hv⟩
  simp [build_graph]
  tauto

/-- Witness for C9 on the one-deck corpus `#main / 1 / 2`. -/
theorem claim_C9_witness :
    (0 < (process_deck_file (some ["#main", "1", "2"])).cooccurrence ("1", "2") ∧
      0 < (parse_ydk_files_parallel [some ["#main", "1", "2"]]).cooccurrence ("1", "2")) ∧
      ((0 < (process_deck_file (some ["#main", "1", "2"])).global_freq "1" ∧
        0 < (process_deck_file (some ["#main", "1", "2"])).global_freq "2") ∧
        (0 < (parse_ydk_files_parallel [some ["#main", "1", "2"]]).global_freq "1" ∧
          0 < (parse_ydk_files_parallel [some ["#main", "1", "2"]]).global_freq "2") ∧
        (1 ≤ (parse_ydk_files_parallel [some ["#main", "1", "2"]]).cooccurrence ("1", "2") →
          (build_graph (parse_ydk_files_parallel [some ["#main", "1", "2"]]).global_freq
            (parse_ydk_files_parallel [some ["#main", "1", "2"]]).cooccurrence 1).hasEdge
              "1" "2" = true)) :=
  ⟨⟨by decide, by decide⟩,
    claim_C9 (some ["#main", "1", "2"]) [some ["#main", "1", "2"]] "1" "2" "1" "2" 1
      (by decide) (by decide)⟩

/-- C10: when the graph has at most max_nodes nodes the visualization
filter leaves it unchanged; otherwise it keeps exactly max_nodes nodes, all
taken from the graph, every kept node's count dominating every dropped
node's count (ties broken by the sort), and keeps exactly the edges whose
two endpoints are kept. -/
theorem claim_C10 (G : VisGraph) (max_nodes : Nat) :
    (G.nodes.length ≤ max_nodes → visualize_filter G max_nodes = G) ∧
      (max_nodes < G.nodes.length →
        (visualize_filter G max_nodes).nodes.length = max_nodes ∧
          (∀ p ∈ (visualize_filter G max_nodes).nodes, p ∈ G.nodes) ∧
          (∀ p ∈ (visualize_filter G max_nodes).nodes, ∀ q ∈ G.nodes,
            q ∉ (visualize_filter G max_nodes).nodes → q.2 ≤ p.2) ∧
          (∀ e : CardId × CardId × Nat, e ∈ (visualize_filter G max_nodes).edges ↔
            (e ∈ G.edges ∧ e.1 ∈ ((visualize_filter G max_nodes).nodes.map Prod.fst) ∧
              e.2.1 ∈ ((visualize_filter G max_nodes).nodes.map Prod.fst)))) := by
  constructor
  · intro h
    unfold visualize_filter
    rw [if_pos h]
  · intro h
    have hnle : ¬(G.nodes.length ≤ max_nodes) := by omega
    have hvf : visualize_filter G max_nodes =
        { nodes := (sortByCountDesc G.nodes).take max_nodes
          edges := G.edges.filter (fun e =>
            decide (e.1 ∈ ((sortByCountDesc G.nodes).take max_nodes).map Prod.fst) &&
            decide (e.2.1 ∈ ((sortByCountDesc G.nodes).take max_nodes).map Prod.fst)) } := by
      unfold visualize_filter
      rw [if_neg hnle]
    have hperm := sortByCountDesc_perm G.nodes
    have hlen : (sortByCountDesc G.nodes).length = G.nodes.length := hperm.length_eq
    refine ⟨?_, ?_, ?_, ?_⟩
    · rw [hvf]
      show ((sortByCountDesc G.nodes).take max_nodes).length = max_nodes
      rw [List.length_take, hlen]
      omega
    · intro p hp
      rw [hvf] at hp
      have hp2 : p ∈ sortByCountDesc G.nodes := List.take_subset _ _ hp
      exact hperm.mem_iff.mp hp2
    · intro p hp q hq hqn
      rw [hvf] at hp hqn
      have hq2 : q ∈ sortByCountDesc G.nodes := hperm.mem_iff.mpr hq
      have hsplit := List.take_append_drop max_nodes (sortByCountDesc G.nodes)
      have hq3 : q ∈ (sortByCountDesc G.nodes).take max_nodes ++
          (sortByCountDesc G.nodes).drop max_nodes := by
        rw [hsplit]
        exact hq2
      rcases List.mem_append.mp hq3 with hq4 | hq4
      · exact absurd hq4 hqn
      · have hsort := sortByCountDesc_sorted G.nodes
        have hpw : List.Pairwise (fun p q : CardId × Nat => q.2 ≤ p.2)
            ((sortByCountDesc G.nodes).take max_nodes ++
              (sortByCountDesc G.nodes).drop max_nodes) := by
          rw [hsplit]
          exact hsort
        exact (List.pairwise_append.mp hpw).2.2 p hp q hq4
    · intro e
      rw [hvf]
      show e ∈ G.edges.filter _ ↔ _
      rw [List.mem_filter]
      constructor
      · rintro ⟨he, hcond⟩
        simp only [Bool.and_eq_true, decide_eq_true_eq] at hcond
        exact ⟨he, hcond.1, hcond.2⟩
      · rintro ⟨he, h1, h2⟩
        refine ⟨he, ?_⟩
        simp only [Bool.and_eq_true, decide_eq_true_eq]
        exact ⟨h1, h2⟩

/-- Witness for C10: a three-node graph filtered to its top two nodes by
count. -/
theorem claim_C10_witness :
    2 < (⟨[("a", 1), ("b", 3), ("c", 2)], [("a", "b", 5), ("b", "c", 4)]⟩ :
        VisGraph).nodes.length ∧
      (visualize_filter
        ⟨[("a", 1), ("b", 3), ("c", 2)], [("a", "b", 5), ("b", "c", 4)]⟩ 2).nodes.length = 2 :=
  ⟨by decide,
    ((claim_C10 ⟨[("a", 1), ("b", 3), ("c", 2)], [("a", "b", 5), ("b", "c", 4)]⟩ 2).2
      (by decide)).1⟩
